import Mathlib

/-!
# Verification of `scrambler.py` (tinted-windows alias seed generator)

Shallow embedding of `src/scrambler.py`.  The program draws random
adjective–noun pairs from two fixed pools, accumulates them in a set until
`count` distinct seeds exist, then returns them shuffled by a secondary
random key and sliced to `count`.

Randomness is modelled by explicit entropy parameters:

* the strong source (`random.SystemRandom`, used by `rng.choice`) becomes a
  finite trace `draws : List (Nat × Nat)` of index pairs — one pair per loop
  iteration, each component reduced modulo the pool size exactly as a valid
  uniform index choice would be;
* the weak source (`random.random()` used as the `sorted` key on line 69)
  becomes a key assignment `ks : String → Nat`, one key per element of the
  (duplicate-free) set being sorted.

The generation loop consumes the finite trace; returning `none` means the
trace was exhausted before `count` distinct seeds were found — an unbounded
run of the Python loop corresponds to `none` for *every* finite trace.
-/

namespace Scrambler

/-- The adjective pool, `ADJECTIVES` of `scrambler.py` lines 31–41. -/
def ADJECTIVES : List String := [
    "amber","arctic","aspen","birch","blaze","bolt","cedar","chalk","cinder",
    "cobalt","copper","coral","crimson","dawn","delta","dusk","echo","ember",
    "fern","flint","forge","frost","glint","grove","hazel","heather","hollow",
    "indigo","inlet","ivory","jade","jasper","kestrel","larch","laurel","linen",
    "lunar","maple","marsh","mist","navy","nimbus","ochre","opal","orbit","otter",
    "petal","pine","prism","quartz","raven","ridge","river","rowan","runic",
    "sable","sage","salt","sand","scout","shale","slate","smoke","solar","sparrow",
    "spruce","starling","storm","summit","swift","tallow","teal","thistle","timber",
    "trace","tundra","vale","vault","veldt","wick","willow","wren","zephyr","zenith"
]

/-- The noun pool, `NOUNS` of `scrambler.py` lines 43–55. -/
def NOUNS : List String := [
    "anvil","arch","basin","beacon","bridge","brook","cable","cairn","canal",
    "canopy","cast","chord","circuit","cistern","cleft","crest","current","depth",
    "dial","drift","dune","echo","edge","ember","falls","field","flare","frame",
    "gate","glade","gorge","grid","gully","haven","hearth","helm","hollow","kelp",
    "knot","latch","ledge","lens","lever","light","line","link","loch","lock",
    "loop","lore","mark","mast","meld","mesh","mill","moor","node","notch",
    "orbit","pass","patch","peak","pier","pillar","pitch","plain","plank","pool",
    "port","post","press","range","rapid","reach","reef","relay","ridge","rift",
    "rivet","root","route","rune","seal","shaft","shore","sill","sluice","span",
    "spoke","stack","stake","stave","stern","strand","strut","surge","sweep",
    "tide","tine","torch","track","trail","vault","vein","weir","well","wharf"
]

/-- Model of `rng.choice(l)`: a uniform random element of `l`.  The entropy consumed is
modelled by the index `i`; reducing modulo `l.length` makes every trace value
a valid uniform index into the pool. -/
def choice (l : List String) (i : Nat) : String := l.getD (i % l.length) ""

/-- Embedding of `generate_seed` (lines 57–62): one adjective and one noun drawn from the
strong source, joined by `"-"`.  `ai`/`ni` are the entropy of the two
`rng.choice` calls. -/
def generate_seed (ai ni : Nat) : String :=
  choice ADJECTIVES ai ++ "-" ++ choice NOUNS ni

/-- Python `seeds.add(x)` on a set, with the set represented as its
insertion-ordered duplicate-free list of elements. -/
def setAdd (s : List String) (x : String) : List String :=
  if x ∈ s then s else s ++ [x]

/-- The `while len(seeds) < count` loop of `generate_seeds` (lines 66–68).
`count` is an `Int` because the Python argument may be negative.  Each
iteration consumes one `(ai, ni)` pair from the strong-source trace; `none`
means the finite trace ran out with the loop still running. -/
def generate_seeds_loop (count : Int) (draws : List (Nat × Nat))
    (seeds : List String) : Option (List String) :=
  if (seeds.length : Int) < count then
    match draws with
    | [] => none
    | d :: rest =>
        generate_seeds_loop count rest (setAdd seeds (generate_seed d.1 d.2))
  else
    some seeds

/-- Comparison by weak-source key: the order `sorted` uses on line 69 once
each element has been decorated with its `random.random()` key. -/
def keyLE (ks : String → Nat) (a b : String) : Prop := ks a ≤ ks b

instance (ks : String → Nat) : DecidableRel (keyLE ks) :=
  fun a b => inferInstanceAs (Decidable (ks a ≤ ks b))

instance (ks : String → Nat) : IsTotal String (keyLE ks) :=
  ⟨fun a b => Nat.le_total (ks a) (ks b)⟩

instance (ks : String → Nat) : IsTrans String (keyLE ks) :=
  ⟨fun _ _ _ => Nat.le_trans⟩

/-- Model of `sorted(seeds, key=lambda x: random.random())` (line 69): every element
gets a key from the weak random source and the list is stably sorted by key.
The set being sorted is duplicate-free, so assigning the random keys per
element value (`ks : String → Nat`) is faithful; a stable insertion sort
models Python's stable `sorted`. -/
def shuffleByKeys (ks : String → Nat) (l : List String) : List String :=
  l.insertionSort (keyLE ks)

/-- Python list slicing `l[:k]`, including the negative-`k` case where the
slice keeps the first `len(l) + k` elements (clamped at zero). -/
def pySliceTo (l : List String) (k : Int) : List String :=
  if 0 ≤ k then l.take k.toNat else l.take ((l.length : Int) + k).toNat

/-- Embedding of `generate_seeds(count)` (lines 64–69): run the uniqueness loop on the
strong-source trace, then shuffle the resulting set by weak-source keys and
slice to `count`. -/
def generate_seeds (count : Int) (draws : List (Nat × Nat))
    (ks : String → Nat) : Option (List String) :=
  (generate_seeds_loop count draws []).map
    (fun seeds => pySliceTo (shuffleByKeys ks seeds) count)

/-- The total addressable space: every adjective–noun join, one per element
of the cross product of the pools. -/
def allSeeds : List String :=
  (ADJECTIVES ×ˢ NOUNS).map (fun p => p.1 ++ "-" ++ p.2)

/-! ## Basic facts about the pools and `choice` -/

theorem ADJECTIVES_length : ADJECTIVES.length = 84 := by decide

theorem NOUNS_length : NOUNS.length = 107 := by decide

theorem ADJECTIVES_nodup : ADJECTIVES.Nodup := by decide

theorem NOUNS_nodup : NOUNS.Nodup := by decide

theorem choice_mem {l : List String} (h : l ≠ []) (i : Nat) : choice l i ∈ l := by
  have hlen : 0 < l.length := List.length_pos.mpr h
  have hmod : i % l.length < l.length := Nat.mod_lt _ hlen
  rw [choice, List.getD_eq_getElem _ _ hmod]
  exact List.getElem_mem hmod

theorem choice_ADJECTIVES_mem (i : Nat) : choice ADJECTIVES i ∈ ADJECTIVES :=
  choice_mem (by decide) i

theorem choice_NOUNS_mem (i : Nat) : choice NOUNS i ∈ NOUNS :=
  choice_mem (by decide) i

theorem generate_seed_mem_allSeeds (ai ni : Nat) : generate_seed ai ni ∈ allSeeds := by
  have hp : (choice ADJECTIVES ai, choice NOUNS ni) ∈ ADJECTIVES ×ˢ NOUNS :=
    List.mem_product.mpr ⟨choice_ADJECTIVES_mem ai, choice_NOUNS_mem ni⟩
  exact List.mem_map.mpr ⟨_, hp, rfl⟩

theorem allSeeds_length : allSeeds.length = 8988 := by
  rw [allSeeds, List.length_map, List.length_product, ADJECTIVES_length, NOUNS_length]

/-! ## The accumulation set -/

theorem mem_setAdd {s : List String} {x y : String} :
    y ∈ setAdd s x ↔ y ∈ s ∨ y = x := by
  by_cases h : x ∈ s
  · simp only [setAdd, if_pos h]
    exact ⟨Or.inl, fun hy => hy.elim id (fun e => e ▸ h)⟩
  · simp [setAdd, if_neg h]

theorem setAdd_nodup {s : List String} (hs : s.Nodup) (x : String) :
    (setAdd s x).Nodup := by
  by_cases h : x ∈ s
  · simpa [setAdd, if_pos h] using hs
  · simp [setAdd, if_neg h, List.nodup_append, hs, h]

theorem length_setAdd_le (s : List String) (x : String) :
    (setAdd s x).length ≤ s.length + 1 := by
  by_cases h : x ∈ s <;> simp [setAdd, h]

/-- Soundness invariant of the `while` loop: any successful run starting from
a duplicate-free accumulation set of valid seeds ends with a duplicate-free
set of valid seeds whose size is at least `count`, and exactly `count`
whenever the starting set had not yet overshot `count`. -/
theorem loop_sound : ∀ (draws : List (Nat × Nat)) (count : Int)
    (seeds out : List String),
    seeds.Nodup → (∀ s ∈ seeds, s ∈ allSeeds) →
    generate_seeds_loop count draws seeds = some out →
    out.Nodup ∧ (∀ s ∈ out, s ∈ allSeeds) ∧ count ≤ (out.length : Int) ∧
      ((seeds.length : Int) ≤ count → (out.length : Int) = count) := by
  intro draws
  induction draws with
  | nil =>
      intro count seeds out hnd hsub h
      rw [generate_seeds_loop] at h
      split at h
      · simp at h
      · rename_i hge
        cases h
        exact ⟨hnd, hsub, by omega, fun _ => by omega⟩
  | cons d rest ih =>
      intro count seeds out hnd hsub h
      rw [generate_seeds_loop] at h
      split at h
      · rename_i hlt
        have hnd' : (setAdd seeds (generate_seed d.1 d.2)).Nodup := setAdd_nodup hnd _
        have hsub' : ∀ s ∈ setAdd seeds (generate_seed d.1 d.2), s ∈ allSeeds := by
          intro s hs
          rcases mem_setAdd.mp hs with hmem | rfl
          · exact hsub s hmem
          · exact generate_seed_mem_allSeeds d.1 d.2
        obtain ⟨nd, sub, hcount, hlen⟩ := ih count _ out hnd' hsub' h
        refine ⟨nd, sub, hcount, fun _ => ?_⟩
        have hlesucc := length_setAdd_le seeds (generate_seed d.1 d.2)
        exact hlen (by omega)
      · rename_i hge
        cases h
        exact ⟨hnd, hsub, by omega, fun _ => by omega⟩

/-! ## Unique decomposition of a seed at its separator -/

theorem dash_notin_ADJECTIVES : ∀ w ∈ ADJECTIVES, '-' ∉ w.data := by decide

theorem dash_notin_NOUNS : ∀ w ∈ NOUNS, '-' ∉ w.data := by decide

theorem join_data (a n : String) :
    (a ++ "-" ++ n).data = a.data ++ '-' :: n.data := by
  simp [String.data_append]

theorem append_dash_inj : ∀ (l₁ l₂ r₁ r₂ : List Char), '-' ∉ l₁ → '-' ∉ l₂ →
    l₁ ++ '-' :: r₁ = l₂ ++ '-' :: r₂ → l₁ = l₂ ∧ r₁ = r₂ := by
  intro l₁
  induction l₁ with
  | nil =>
      intro l₂ r₁ r₂ h₁ h₂ h
      cases l₂ with
      | nil => simpa using h
      | cons c cs =>
          rw [List.nil_append, List.cons_append] at h
          obtain ⟨hc, -⟩ := List.cons.inj h
          exact absurd (hc ▸ List.mem_cons_self c cs) h₂
  | cons c cs ih =>
      intro l₂ r₁ r₂ h₁ h₂ h
      cases l₂ with
      | nil =>
          rw [List.nil_append, List.cons_append] at h
          obtain ⟨hc, -⟩ := List.cons.inj h
          exact absurd (hc ▸ List.mem_cons_self c cs) h₁
      | cons c2 cs2 =>
          rw [List.cons_append, List.cons_append] at h
          obtain ⟨hc, h⟩ := List.cons.inj h
          obtain ⟨e₁, e₂⟩ := ih cs2 r₁ r₂
            (fun hm => h₁ (List.mem_cons_of_mem _ hm))
            (fun hm => h₂ (List.mem_cons_of_mem _ hm)) h
          exact ⟨by rw [hc, e₁], e₂⟩

theorem join_inj {a₁ n₁ a₂ n₂ : String}
    (h₁ : '-' ∉ a₁.data) (h₂ : '-' ∉ a₂.data)
    (h : a₁ ++ "-" ++ n₁ = a₂ ++ "-" ++ n₂) : a₁ = a₂ ∧ n₁ = n₂ := by
  have hd : a₁.data ++ '-' :: n₁.data = a₂.data ++ '-' :: n₂.data := by
    rw [← join_data, ← join_data, h]
  obtain ⟨e₁, e₂⟩ := append_dash_inj _ _ _ _ h₁ h₂ hd
  exact ⟨String.ext e₁, String.ext e₂⟩

theorem allSeeds_nodup : allSeeds.Nodup := by
  refine List.Nodup.map_on ?_ (ADJECTIVES_nodup.product NOUNS_nodup)
  rintro ⟨a₁, n₁⟩ hp₁ ⟨a₂, n₂⟩ hp₂ h
  obtain ⟨ha₁, hn₁⟩ := List.mem_product.mp hp₁
  obtain ⟨ha₂, hn₂⟩ := List.mem_product.mp hp₂
  obtain ⟨e₁, e₂⟩ :=
    join_inj (dash_notin_ADJECTIVES _ ha₁) (dash_notin_ADJECTIVES _ ha₂) h
  simp only at e₁ e₂
  simp [e₁, e₂]

theorem choice_eq_getElem {l : List String} {i : Nat} (h : i < l.length) :
    choice l i = l[i] := by
  rw [choice, Nat.mod_eq_of_lt h, List.getD_eq_getElem _ _ h]

theorem mem_allSeeds {s : String} :
    s ∈ allSeeds ↔ ∃ ai ni, generate_seed ai ni = s := by
  constructor
  · intro hs
    obtain ⟨⟨a, n⟩, hp, rfl⟩ := List.mem_map.mp hs
    obtain ⟨ha, hn⟩ := List.mem_product.mp hp
    obtain ⟨i, hi, hia⟩ := List.getElem_of_mem ha
    obtain ⟨j, hj, hjn⟩ := List.getElem_of_mem hn
    refine ⟨i, j, ?_⟩
    rw [generate_seed, choice_eq_getElem hi, choice_eq_getElem hj, hia, hjn]
  · rintro ⟨ai, ni, rfl⟩
    exact generate_seed_mem_allSeeds ai ni

/-- C6 counterexample: the pools do not have 86 and 110 elements — the
adjective pool has 84 and the noun pool has 107. -/
theorem pool_sizes_not_86_110 :
    ¬ (ADJECTIVES.length = 86 ∧ NOUNS.length = 110) := by decide

/-- C6 (amended): the adjective pool has 84 elements and the noun pool has
107 elements, so the total addressable space of distinct possible seeds is
84 × 107 = 8,988: the cross-product list of joins has length 84 · 107, is
duplicate-free, and contains exactly the values `generate_seed` can return. -/
theorem pool_sizes_and_total_space :
    ADJECTIVES.length = 84 ∧ NOUNS.length = 107 ∧
    allSeeds.length = 84 * 107 ∧ allSeeds.Nodup ∧
    ∀ s : String, s ∈ allSeeds ↔ ∃ ai ni, generate_seed ai ni = s :=
  ⟨ADJECTIVES_length, NOUNS_length, by rw [allSeeds_length], allSeeds_nodup,
    fun _ => mem_allSeeds⟩

/-! ## C1, C2, C3: batch size and failure behaviour -/

/-- C1: for every `count` in the range `[0, |ADJECTIVES| * |NOUNS|]`
(`= [0, 8988]`), any completed run of `generate_seeds count` — i.e. one whose
strong-entropy trace let the `while` loop finish — returns a sequence of
exactly `count` seeds that are pairwise distinct. -/
theorem generate_seeds_exact_count_distinct (count : Int)
    (draws : List (Nat × Nat)) (ks : String → Nat) (out : List String)
    (h0 : 0 ≤ count) (h1 : count ≤ 8988)
    (h : generate_seeds count draws ks = some out) :
    (out.length : Int) = count ∧ out.Nodup := by
  rw [generate_seeds] at h
  obtain ⟨seeds, hloop, hmap⟩ := Option.map_eq_some'.mp h
  obtain ⟨nd, -, -, hlen⟩ := loop_sound draws count [] seeds (by simp) (by simp) hloop
  have hlen' : (seeds.length : Int) = count := hlen (by simpa using h0)
  have hperm : List.Perm (shuffleByKeys ks seeds) seeds := List.perm_insertionSort _ _
  have hslice : pySliceTo (shuffleByKeys ks seeds) count = shuffleByKeys ks seeds := by
    rw [pySliceTo, if_pos h0]
    have ht : count.toNat = (shuffleByKeys ks seeds).length := by
      rw [hperm.length_eq]; omega
    rw [ht, List.take_length]
  rw [← hmap, hslice]
  exact ⟨by rw [hperm.length_eq]; omega, hperm.nodup_iff.mpr nd⟩

/-- C1 witness: the completed concrete run
`generate_seeds 1 [(0,0)]` returns exactly one seed, duplicate-free. -/
theorem generate_seeds_exact_count_distinct_witness :
    ((["amber-anvil"] : List String).length : Int) = 1 ∧
      (["amber-anvil"] : List String).Nodup :=
  generate_seeds_exact_count_distinct 1 [(0, 0)] (fun _ => 0) ["amber-anvil"]
    (by decide) (by decide) (by decide)

/-- C2: for any `count` greater than the total pair space `84 * 107 = 8988`,
the loop can never collect enough distinct seeds, so **no** finite entropy
trace makes `generate_seeds` return: the Python call loops forever instead
of failing fast with a descriptive error as the specification requires. -/
theorem generate_seeds_oversized_never_returns (count : Int) (h : 8988 < count)
    (draws : List (Nat × Nat)) (ks : String → Nat) :
    generate_seeds count draws ks = none := by
  cases hcase : generate_seeds_loop count draws [] with
  | none => rw [generate_seeds, hcase]; rfl
  | some seeds =>
      exfalso
      obtain ⟨nd, sub, hcount, -⟩ :=
        loop_sound draws count [] seeds (by simp) (by simp) hcase
      have hle : seeds.length ≤ allSeeds.length := (nd.subperm sub).length_le
      rw [allSeeds_length] at hle
      omega

/-- C2 witness: requesting 8989 seeds never returns. -/
theorem generate_seeds_oversized_never_returns_witness :
    generate_seeds 8989 [] (fun _ => 0) = none :=
  generate_seeds_oversized_never_returns 8989 (by decide) [] (fun _ => 0)

/-- C3: a negative `count` is **not** rejected: the loop condition
`len(seeds) < count` is immediately false, so `generate_seeds` returns the
normal (empty) result for every negative count — it neither fails with a
descriptive error nor hangs, contradicting the required up-front
rejection. -/
theorem generate_seeds_negative_returns_normally (count : Int) (h : count < 0)
    (draws : List (Nat × Nat)) (ks : String → Nat) :
    generate_seeds count draws ks = some [] := by
  have hloop : generate_seeds_loop count draws [] = some [] := by
    rw [generate_seeds_loop.eq_def, if_neg (by simp; omega)]
  rw [generate_seeds, hloop, Option.map_some']
  have hsh : shuffleByKeys ks [] = [] := rfl
  rw [hsh, pySliceTo, if_neg (by omega)]
  simp

/-- C3 witness: `generate_seeds (-1)` returns the empty list normally. -/
theorem generate_seeds_negative_returns_normally_witness :
    generate_seeds (-1) [] (fun _ => 0) = some [] :=
  generate_seeds_negative_returns_normally (-1) (by decide) [] (fun _ => 0)

/-! ## C4: every seed is a pool adjective and a pool noun joined by "-" -/

theorem pySliceTo_subset (l : List String) (k : Int) : pySliceTo l k ⊆ l := by
  rw [pySliceTo]; split <;> exact List.take_subset _ _

theorem mem_allSeeds_form : ∀ s ∈ allSeeds,
    ∃ a ∈ ADJECTIVES, ∃ n ∈ NOUNS, s = a ++ "-" ++ n := by
  intro s hs
  obtain ⟨⟨a, n⟩, hp, rfl⟩ := List.mem_map.mp hs
  obtain ⟨ha, hn⟩ := List.mem_product.mp hp
  exact ⟨a, ha, n, hn, rfl⟩

/-- C4: every seed produced by `generate_seed` — and hence every element of
any sequence returned by `generate_seeds` — is a member of the adjective
pool and a member of the noun pool joined by the fixed separator `"-"`. -/
theorem seeds_match_pattern :
    (∀ ai ni, ∃ a ∈ ADJECTIVES, ∃ n ∈ NOUNS,
        generate_seed ai ni = a ++ "-" ++ n) ∧
    ∀ (count : Int) (draws : List (Nat × Nat)) (ks : String → Nat)
      (out : List String), generate_seeds count draws ks = some out →
      ∀ s ∈ out, ∃ a ∈ ADJECTIVES, ∃ n ∈ NOUNS, s = a ++ "-" ++ n := by
  constructor
  · intro ai ni
    exact ⟨_, choice_ADJECTIVES_mem ai, _, choice_NOUNS_mem ni, rfl⟩
  · intro count draws ks out h s hs
    rw [generate_seeds] at h
    obtain ⟨seeds, hloop, hmap⟩ := Option.map_eq_some'.mp h
    obtain ⟨-, sub, -, -⟩ := loop_sound draws count [] seeds (by simp) (by simp) hloop
    subst hmap
    have h1 : s ∈ shuffleByKeys ks seeds := pySliceTo_subset _ _ hs
    rw [shuffleByKeys, List.mem_insertionSort] at h1
    exact mem_allSeeds_form s (sub s h1)

/-- C4 witness: the single element of the completed run
`generate_seeds 1 [(0,0)]` matches the pattern. -/
theorem seeds_match_pattern_witness :
    ∃ a ∈ ADJECTIVES, ∃ n ∈ NOUNS, "amber-anvil" = a ++ "-" ++ n :=
  seeds_match_pattern.2 1 [(0, 0)] (fun _ => 0) ["amber-anvil"] (by decide)
    "amber-anvil" (by decide)

/-! ## C10: the separator never occurs in a pool word, so splitting at the
unique "-" inverts the join -/

/-- Splitting a character list at its first `'-'`: everything before it and
everything after it. -/
def splitFirstDash : List Char → List Char × List Char
  | [] => ([], [])
  | c :: cs =>
      if c = '-' then ([], cs)
      else (c :: (splitFirstDash cs).1, (splitFirstDash cs).2)

theorem splitFirstDash_append {l : List Char} (hl : '-' ∉ l) (r : List Char) :
    splitFirstDash (l ++ '-' :: r) = (l, r) := by
  induction l with
  | nil => simp [splitFirstDash]
  | cons c cs ih =>
      have hc : c ≠ '-' := fun e => hl (e ▸ List.mem_cons_self c cs)
      have hcs : '-' ∉ cs := fun hm => hl (List.mem_cons_of_mem _ hm)
      simp [splitFirstDash, hc, ih hcs]

theorem count_dash_join {a n : String} (ha : '-' ∉ a.data) (hn : '-' ∉ n.data) :
    (a ++ "-" ++ n).data.count '-' = 1 := by
  rw [join_data]
  simp [List.count_append, List.count_cons,
    List.count_eq_zero.mpr ha, List.count_eq_zero.mpr hn]

/-- C10: no pool word contains `'-'`; consequently every generated seed
contains exactly one `'-'`, and splitting the seed at its unique `'-'`
recovers exactly the adjective and the noun that `generate_seed` joined. -/
theorem seed_split_roundtrip :
    (∀ w ∈ ADJECTIVES, '-' ∉ w.data) ∧ (∀ w ∈ NOUNS, '-' ∉ w.data) ∧
    ∀ ai ni,
      (generate_seed ai ni).data.count '-' = 1 ∧
      splitFirstDash ((generate_seed ai ni).data) =
        ((choice ADJECTIVES ai).data, (choice NOUNS ni).data) := by
  refine ⟨dash_notin_ADJECTIVES, dash_notin_NOUNS, fun ai ni => ?_⟩
  have ha := dash_notin_ADJECTIVES _ (choice_ADJECTIVES_mem ai)
  have hn := dash_notin_NOUNS _ (choice_NOUNS_mem ni)
  refine ⟨count_dash_join ha hn, ?_⟩
  rw [generate_seed, join_data]
  exact splitFirstDash_append ha _

/-- C10 witness: concrete check at the seed built from indices (0, 0). -/
theorem seed_split_roundtrip_witness :
    '-' ∉ ("amber" : String).data ∧
    ((generate_seed 0 0).data.count '-' = 1 ∧
      splitFirstDash ((generate_seed 0 0).data) =
        ((choice ADJECTIVES 0).data, (choice NOUNS 0).data)) :=
  ⟨seed_split_roundtrip.1 "amber" (by decide), seed_split_roundtrip.2.2 0 0⟩

/-! ## C5: the final ordering step -/

theorem shuffleByKeys_perm (ks : String → Nat) (l : List String) :
    List.Perm (shuffleByKeys ks l) l := List.perm_insertionSort _ _

theorem shuffleByKeys_sorted (ks : String → Nat) (l : List String) :
    (shuffleByKeys ks l).Pairwise (keyLE ks) := List.sorted_insertionSort _ _

theorem mem_shuffleByKeys {ks : String → Nat} {l : List String} {x : String} :
    x ∈ shuffleByKeys ks l ↔ x ∈ l := by
  rw [shuffleByKeys, List.mem_insertionSort]

theorem pySliceTo_full {l : List String} {k : Int} (h0 : 0 ≤ k)
    (hlen : (l.length : Int) = k) : pySliceTo l k = l := by
  rw [pySliceTo, if_pos h0]
  have ht : k.toNat = l.length := by omega
  rw [ht, List.take_length]

theorem shuffleByKeys_order_independent (ks : String → Nat)
    {l₁ l₂ : List String} (hperm : List.Perm l₁ l₂)
    (hinj : ∀ x ∈ l₁, ∀ y ∈ l₁, ks x = ks y → x = y) :
    shuffleByKeys ks l₁ = shuffleByKeys ks l₂ := by
  have hanti : ∀ a b, a ∈ shuffleByKeys ks l₁ → b ∈ shuffleByKeys ks l₂ →
      keyLE ks a b → keyLE ks b a → a = b := by
    intro a b ha hb hab hba
    have ha' : a ∈ l₁ := mem_shuffleByKeys.mp ha
    have hb' : b ∈ l₁ := hperm.mem_iff.mpr (mem_shuffleByKeys.mp hb)
    exact hinj a ha' b hb' (Nat.le_antisymm hab hba)
  exact List.Perm.eq_of_sorted hanti (shuffleByKeys_sorted ks l₁)
    (shuffleByKeys_sorted ks l₂)
    ((shuffleByKeys_perm ks l₁).trans (hperm.trans (shuffleByKeys_perm ks l₂).symm))

theorem shuffleByKeys_realizes_any_order {l t : List String}
    (hnd : l.Nodup) (hperm : List.Perm t l) :
    ∃ ks : String → Nat, shuffleByKeys ks l = t := by
  refine ⟨fun s => t.indexOf s, ?_⟩
  have htnd : t.Nodup := hperm.nodup_iff.mpr hnd
  have hanti : ∀ a b, a ∈ shuffleByKeys (fun s => t.indexOf s) l → b ∈ t →
      keyLE (fun s => t.indexOf s) a b → keyLE (fun s => t.indexOf s) b a →
      a = b := by
    intro a b ha hb hab hba
    have ha' : a ∈ t := hperm.mem_iff.mpr (mem_shuffleByKeys.mp ha)
    have heq : t.indexOf a = t.indexOf b := Nat.le_antisymm hab hba
    exact (List.indexOf_inj ha' hb).mp heq
  have hsortt : t.Pairwise (keyLE (fun s => t.indexOf s)) := by
    rw [List.pairwise_iff_getElem]
    intro i j hi hj hij
    show t.indexOf t[i] ≤ t.indexOf t[j]
    rw [List.indexOf_getElem htnd i hi, List.indexOf_getElem htnd j hj]
    omega
  exact List.Perm.eq_of_sorted hanti (shuffleByKeys_sorted _ _) hsortt
    ((shuffleByKeys_perm _ _).trans hperm.symm)

/-- C5: the final ordering step of `generate_seeds`.
(i) A completed run returns a permutation of the deduplicated set of drawn
seeds: the key-shuffle permutes the set and, the set having exactly `count`
elements, the `[:count]` truncation keeps all of it.
(ii) With injective keys the shuffled output does not depend on the
insertion order of the set being shuffled, and
(iv, last conjunct) shuffling the alphabetically sorted set yields exactly
the same output as shuffling the set in draw order, so the spec's
"re-shuffles the alphabetically-sorted set" mechanism is extensionally the
code's behaviour.
(iii) Every ordering of the set is realized by some assignment of
weak-source keys: the output order is randomized by the separate weak
source, independently of the generation/insertion order. -/
theorem shuffle_contract :
    (∀ (count : Int) (draws : List (Nat × Nat)) (ks : String → Nat)
       (seeds out : List String), 0 ≤ count →
       generate_seeds_loop count draws [] = some seeds →
       generate_seeds count draws ks = some out →
       List.Perm out seeds) ∧
    (∀ (ks : String → Nat) (l₁ l₂ : List String), List.Perm l₁ l₂ →
       (∀ x ∈ l₁, ∀ y ∈ l₁, ks x = ks y → x = y) →
       shuffleByKeys ks l₁ = shuffleByKeys ks l₂) ∧
    (∀ (l t : List String), l.Nodup → List.Perm t l →
       ∃ ks : String → Nat, shuffleByKeys ks l = t) ∧
    (∀ (ks : String → Nat) (l : List String),
       (∀ x ∈ l, ∀ y ∈ l, ks x = ks y → x = y) →
       shuffleByKeys ks (l.insertionSort (fun a b => a ≤ b)) =
         shuffleByKeys ks l) := by
  refine ⟨?_, fun ks l₁ l₂ h hinj => shuffleByKeys_order_independent ks h hinj,
    fun l t hnd hperm => shuffleByKeys_realizes_any_order hnd hperm, ?_⟩
  · intro count draws ks seeds out h0 hloop h
    rw [generate_seeds, hloop, Option.map_some'] at h
    cases h
    obtain ⟨-, -, -, hlen⟩ := loop_sound draws count [] seeds (by simp) (by simp) hloop
    have hperm := shuffleByKeys_perm ks seeds
    rw [pySliceTo_full h0 (by rw [hperm.length_eq]; exact hlen (by simpa using h0))]
    exact hperm
  · intro ks l hinj
    apply shuffleByKeys_order_independent ks (List.perm_insertionSort _ l)
    intro x hx y hy
    exact hinj x ((List.mem_insertionSort _).mp hx) y ((List.mem_insertionSort _).mp hy)

/-- C5 witness: a concrete completed run whose output is a permutation of
the drawn set. -/
theorem shuffle_contract_witness :
    List.Perm ["amber-anvil"] ["amber-anvil"] :=
  shuffle_contract.1 1 [(0, 0)] (fun _ => 0) ["amber-anvil"] ["amber-anvil"]
    (by decide) (by decide) (by decide)

/-! ## C9: two distinct randomness dependencies -/

theorem generate_seeds_some_spec {count : Int} {draws : List (Nat × Nat)}
    {ks : String → Nat} {out : List String}
    (h0 : 0 ≤ count) (h : generate_seeds count draws ks = some out) :
    (out.length : Int) = count ∧ out.Nodup ∧ ∀ s ∈ out, s ∈ allSeeds := by
  rw [generate_seeds] at h
  obtain ⟨seeds, hloop, hmap⟩ := Option.map_eq_some'.mp h
  obtain ⟨nd, sub, -, hlen⟩ := loop_sound draws count [] seeds (by simp) (by simp) hloop
  have hlen' := hlen (by simpa using h0)
  have hperm := shuffleByKeys_perm ks seeds
  subst hmap
  rw [pySliceTo_full h0 (by rw [hperm.length_eq]; exact hlen')]
  exact ⟨by rw [hperm.length_eq]; exact hlen', hperm.nodup_iff.mpr nd,
    fun s hs => sub s (mem_shuffleByKeys.mp hs)⟩

/-- C9: the pair selection and the output-order shuffle are two distinct
injected randomness dependencies.  In the embedding the OS-backed strong
source (`random.SystemRandom()`, consumed by `rng.choice` on lines 59–61 and
65–68 of the source) is the trace `draws`, and the process-global weak
source (`random.random()`, line 69) is the key assignment `ks`.  The
selection loop consumes only the strong trace: whether the call completes is
unaffected by the weak source, and two runs with the same strong trace but
arbitrary different weak sources select exactly the same set of seeds —
their outputs are permutations of each other, so the weak source only ever
influences output order, never which seeds are chosen. -/
theorem randomness_sources_distinct :
    (∀ (count : Int) (draws : List (Nat × Nat)) (ks ks' : String → Nat),
       (generate_seeds count draws ks).isSome =
         (generate_seeds count draws ks').isSome) ∧
    ∀ (count : Int) (draws : List (Nat × Nat)) (ks ks' : String → Nat)
      (out out' : List String), 0 ≤ count →
      generate_seeds count draws ks = some out →
      generate_seeds count draws ks' = some out' →
      List.Perm out out' := by
  constructor
  · intro count draws ks ks'
    cases hcase : generate_seeds_loop count draws [] <;>
      simp [generate_seeds, hcase]
  · intro count draws ks ks' out out' h0 h h'
    cases hcase : generate_seeds_loop count draws [] with
    | none => rw [generate_seeds, hcase] at h; simp at h
    | some seeds =>
        rw [generate_seeds, hcase, Option.map_some'] at h h'
        cases h; cases h'
        obtain ⟨-, -, -, hlen⟩ :=
          loop_sound draws count [] seeds (by simp) (by simp) hcase
        have hl := hlen (by simpa using h0)
        rw [pySliceTo_full h0 (by rw [(shuffleByKeys_perm ks seeds).length_eq]; exact hl),
          pySliceTo_full h0 (by rw [(shuffleByKeys_perm ks' seeds).length_eq]; exact hl)]
        exact (shuffleByKeys_perm ks seeds).trans (shuffleByKeys_perm ks' seeds).symm

/-- C9 witness: same strong trace, two different weak sources, permuted
outputs. -/
theorem randomness_sources_distinct_witness :
    List.Perm ["amber-anvil", "arctic-arch"] ["arctic-arch", "amber-anvil"] :=
  randomness_sources_distinct.2 2 [(0, 0), (1, 1)]
    (fun s => if s = "amber-anvil" then 0 else 1)
    (fun s => if s = "amber-anvil" then 1 else 0)
    ["amber-anvil", "arctic-arch"] ["arctic-arch", "amber-anvil"]
    (by decide) (by decide) (by decide)

/-! ## C7: the generator never mutates the pools -/

/-- The module-level state `generate_seed` / `generate_seeds` can read: the
two word-pool globals of `scrambler.py`. -/
structure Pools where
  adjectives : List String
  nouns : List String

/-- The pools as loaded once at process start. -/
def initPools : Pools := ⟨ADJECTIVES, NOUNS⟩

/-- Embedding of `generate_seed` as a state transformer over the pools it reads: the seed
together with the post-call pool state. -/
def generate_seedIn (p : Pools) (ai ni : Nat) : String × Pools :=
  (choice p.adjectives ai ++ "-" ++ choice p.nouns ni, p)

/-- The `generate_seeds` loop as a state transformer over the pools. -/
def generate_seeds_loopIn (count : Int) (draws : List (Nat × Nat))
    (seeds : List String) (p : Pools) : Option (List String) × Pools :=
  if (seeds.length : Int) < count then
    match draws with
    | [] => (none, p)
    | d :: rest =>
        generate_seeds_loopIn count rest
          (setAdd seeds (generate_seedIn p d.1 d.2).1) (generate_seedIn p d.1 d.2).2
  else
    (some seeds, p)

/-- Embedding of `generate_seeds` as a state transformer over the pools. -/
def generate_seedsIn (count : Int) (draws : List (Nat × Nat))
    (ks : String → Nat) (p : Pools) : Option (List String) × Pools :=
  ((generate_seeds_loopIn count draws [] p).1.map
      (fun seeds => pySliceTo (shuffleByKeys ks seeds) count),
    (generate_seeds_loopIn count draws [] p).2)

/-- One generator call: either `generate_seed` with its two strong draws, or
`generate_seeds` with a requested count, strong trace and weak keys. -/
inductive GenCall where
  | seed (ai ni : Nat)
  | seeds (count : Int) (draws : List (Nat × Nat)) (ks : String → Nat)

/-- Run any number of generator calls, threading the pool state through. -/
def runCalls (p : Pools) : List GenCall → Pools
  | [] => p
  | GenCall.seed ai ni :: rest => runCalls (generate_seedIn p ai ni).2 rest
  | GenCall.seeds c d k :: rest => runCalls (generate_seedsIn c d k p).2 rest

theorem generate_seeds_loopIn_state : ∀ (draws : List (Nat × Nat))
    (count : Int) (seeds : List String) (p : Pools),
    (generate_seeds_loopIn count draws seeds p).2 = p := by
  intro draws
  induction draws with
  | nil =>
      intro count seeds p
      rw [generate_seeds_loopIn]
      split <;> rfl
  | cons d rest ih =>
      intro count seeds p
      rw [generate_seeds_loopIn]
      split
      · exact ih count _ p
      · rfl

theorem generate_seeds_loopIn_fst : ∀ (draws : List (Nat × Nat))
    (count : Int) (seeds : List String),
    (generate_seeds_loopIn count draws seeds initPools).1 =
      generate_seeds_loop count draws seeds := by
  intro draws
  induction draws with
  | nil =>
      intro count seeds
      rw [generate_seeds_loopIn, generate_seeds_loop]
      split <;> rfl
  | cons d rest ih =>
      intro count seeds
      rw [generate_seeds_loopIn, generate_seeds_loop]
      split
      · exact ih count _
      · rfl

/-- C7: no generator operation mutates the word pools: any number of
`generate_seed` / `generate_seeds` calls leaves the pool state — contents
and sizes of both pools — exactly as it was, and the stateful embedding run
on the initial pools computes exactly the pure generator functions. -/
theorem pools_never_mutated :
    (∀ (p : Pools) (calls : List GenCall),
       runCalls p calls = p ∧
       (runCalls p calls).adjectives = p.adjectives ∧
       (runCalls p calls).nouns = p.nouns ∧
       (runCalls p calls).adjectives.length = p.adjectives.length ∧
       (runCalls p calls).nouns.length = p.nouns.length) ∧
    (∀ ai ni, generate_seedIn initPools ai ni = (generate_seed ai ni, initPools)) ∧
    ∀ (count : Int) (draws : List (Nat × Nat)) (ks : String → Nat),
      generate_seedsIn count draws ks initPools =
        (generate_seeds count draws ks, initPools) := by
  have hrun : ∀ (calls : List GenCall) (p : Pools), runCalls p calls = p := by
    intro calls
    induction calls with
    | nil => intro p; rfl
    | cons c rest ih =>
        intro p
        cases c with
        | seed ai ni => exact ih p
        | seeds cnt d k =>
            show runCalls (generate_seedsIn cnt d k p).2 rest = p
            rw [show (generate_seedsIn cnt d k p).2 = p from
              generate_seeds_loopIn_state d cnt [] p]
            exact ih p
  refine ⟨fun p calls => ?_, fun ai ni => rfl, fun count draws ks => ?_⟩
  · rw [hrun calls p]
    exact ⟨rfl, rfl, rfl, rfl, rfl⟩
  · simp only [generate_seedsIn, generate_seeds,
      generate_seeds_loopIn_fst draws count [],
      generate_seeds_loopIn_state draws count [] initPools]

/-! ## C8: the exported file -/

/-- Content written to `alias-seeds.txt` by `--export` (line 93 of the
source): `"\n".join(seeds) + "\n"`. -/
def exportContent (seeds : List String) : String :=
  String.intercalate "\n" seeds ++ "\n"

/-- The seeds printed to the console: the `for s in seeds` loop of `main`
(lines 83–87) prints exactly one row per element of the generated list, and
the row's SEED column is the seed itself. -/
def consolePrintedSeeds (seeds : List String) : List String := seeds

/-- Decompose a character stream into its newline-separated chunks: a stream
that is a sequence of newline-terminated lines with no trailing metadata
decomposes into those lines followed by one final empty chunk. -/
def splitNl : List Char → List (List Char)
  | [] => [[]]
  | c :: cs =>
      if c = '\n' then [] :: splitNl cs
      else (c :: (splitNl cs).headD []) :: (splitNl cs).tail

theorem splitNl_ne_nil : ∀ cs : List Char, splitNl cs ≠ [] := by
  intro cs
  cases cs with
  | nil => simp [splitNl]
  | cons c cs => rw [splitNl]; split <;> simp

theorem splitNl_append {l : List Char} (hl : '\n' ∉ l) (cs : List Char) :
    splitNl (l ++ cs) = (l ++ (splitNl cs).headD []) :: (splitNl cs).tail := by
  induction l with
  | nil =>
      simp only [List.nil_append]
      cases h : splitNl cs with
      | nil => exact absurd h (splitNl_ne_nil cs)
      | cons a as => simp
  | cons c csl ih =>
      have hc : c ≠ '\n' := fun e => hl (e ▸ List.mem_cons_self _ _)
      have h' : '\n' ∉ csl := fun hm => hl (List.mem_cons_of_mem _ hm)
      rw [List.cons_append, splitNl, if_neg hc, ih h']
      simp

theorem splitNl_line {l : List Char} (hl : '\n' ∉ l) (cs : List Char) :
    splitNl (l ++ '\n' :: cs) = l :: splitNl cs := by
  rw [splitNl_append hl]
  simp [splitNl]

theorem intercalate_go_data (s : String) : ∀ (as : List String) (acc : String),
    (String.intercalate.go acc s as).data =
      acc.data ++ as.flatMap (fun x => s.data ++ x.data) := by
  intro as
  induction as with
  | nil => intro acc; simp [String.intercalate.go]
  | cons a as ih =>
      intro acc
      rw [String.intercalate.go, ih]
      simp [String.data_append]

theorem exportContent_cons_cons_data (a b : String) (bs : List String) :
    (exportContent (a :: b :: bs)).data =
      a.data ++ '\n' :: (exportContent (b :: bs)).data := by
  simp [exportContent, String.intercalate, intercalate_go_data,
    String.data_append]

theorem exportContent_singleton_data (a : String) :
    (exportContent [a]).data = a.data ++ '\n' :: [] := by
  simp [exportContent, String.intercalate, String.intercalate.go,
    String.data_append]

theorem splitNl_exportContent : ∀ (seeds : List String), seeds ≠ [] →
    (∀ w ∈ seeds, '\n' ∉ w.data) →
    splitNl ((exportContent seeds).data) = seeds.map String.data ++ [[]] := by
  intro seeds
  induction seeds with
  | nil => intro h; exact absurd rfl h
  | cons a as ih =>
      intro _ hnl
      have ha : '\n' ∉ a.data := hnl a (List.mem_cons_self _ _)
      cases as with
      | nil =>
          rw [exportContent_singleton_data, splitNl_line ha]
          simp [splitNl]
      | cons b bs =>
          rw [exportContent_cons_cons_data, splitNl_line ha,
            ih (by simp) (fun w hw => hnl w (List.mem_cons_of_mem _ hw))]
          simp

theorem nl_notin_ADJECTIVES : ∀ w ∈ ADJECTIVES, '\n' ∉ w.data := by decide

theorem nl_notin_NOUNS : ∀ w ∈ NOUNS, '\n' ∉ w.data := by decide

theorem allSeeds_no_nl : ∀ s ∈ allSeeds, '\n' ∉ s.data := by
  intro s hs hmem
  obtain ⟨a, ha, n, hn, rfl⟩ := mem_allSeeds_form s hs
  rw [join_data] at hmem
  rcases List.mem_append.mp hmem with h1 | h1
  · exact nl_notin_ADJECTIVES a ha h1
  · rcases List.mem_cons.mp h1 with h2 | h2
    · exact absurd h2 (by decide)
    · exact nl_notin_NOUNS n hn h2

theorem allSeeds_data_ne_nil : ∀ s ∈ allSeeds, s.data ≠ [] := by
  intro s hs
  obtain ⟨a, ha, n, hn, rfl⟩ := mem_allSeeds_form s hs
  rw [join_data]
  simp

/-- C8: for any completed run with `count = 5` (as under
`--count 5 --export`): the exported file content decomposes into exactly the
5 generated seeds as newline-terminated lines followed by the empty chunk
after the final newline — no header, no trailing metadata; every line is
non-empty and matches the `<adjective>-<noun>` pattern; and the list (hence
the set) of lines equals the seeds printed to the console for that run. -/
theorem export_roundtrip (draws : List (Nat × Nat)) (ks : String → Nat)
    (out : List String) (h : generate_seeds 5 draws ks = some out) :
    out.length = 5 ∧
    splitNl ((exportContent out).data) =
      (consolePrintedSeeds out).map String.data ++ [[]] ∧
    ∀ l ∈ out, l.data ≠ [] ∧ ∃ a ∈ ADJECTIVES, ∃ n ∈ NOUNS, l = a ++ "-" ++ n := by
  obtain ⟨hlen, -, hsub⟩ := generate_seeds_some_spec (by decide) h
  have hlen5 : out.length = 5 := by omega
  refine ⟨hlen5, ?_, ?_⟩
  · exact splitNl_exportContent out (by rw [← List.length_pos]; omega)
      (fun w hw => allSeeds_no_nl w (hsub w hw))
  · intro l hl
    exact ⟨allSeeds_data_ne_nil l (hsub l hl), mem_allSeeds_form l (hsub l hl)⟩

/-- C8 witness: a concrete completed run with five seeds. -/
theorem export_roundtrip_witness :
    (["amber-anvil", "arctic-arch", "aspen-basin", "birch-beacon",
        "blaze-bridge"] : List String).length = 5 ∧
    splitNl ((exportContent ["amber-anvil", "arctic-arch", "aspen-basin",
        "birch-beacon", "blaze-bridge"]).data) =
      (consolePrintedSeeds ["amber-anvil", "arctic-arch", "aspen-basin",
        "birch-beacon", "blaze-bridge"]).map String.data ++ [[]] ∧
    ∀ l ∈ (["amber-anvil", "arctic-arch", "aspen-basin", "birch-beacon",
        "blaze-bridge"] : List String),
      l.data ≠ [] ∧ ∃ a ∈ ADJECTIVES, ∃ n ∈ NOUNS, l = a ++ "-" ++ n :=
  export_roundtrip [(0, 0), (1, 1), (2, 2), (3, 3), (4, 4)] (fun _ => 0)
    ["amber-anvil", "arctic-arch", "aspen-basin", "birch-beacon",
      "blaze-bridge"] (by decide)

end Scrambler
